import Mathlib

/-!
Shallow embedding of `src/script.py` (product-catalog reconciliation and merge)
and verification of the specification's claims about it.

Modelling conventions:
* A cell value is either missing (pandas/NumPy `NaN`) or a scalar; scalars are
  modelled by their Python `str()` form, since the engine never computes on
  them (no arithmetic), only stringifies, trims, compares and copies them.
* Python's `str.lower` is modelled for the Latin and Cyrillic alphabets that
  occur in the program's configuration; `str.strip` for ASCII whitespace.
* DataFrames are modelled as a column list plus rows; after `pd.concat`
  every row is re-indexed on the union of the column lists (missing-filled),
  exactly as `pd.concat(axis=0, ignore_index=True, sort=False)` does.
-/

namespace CatalogSorter

/-- A cell of a table: missing (`NaN`) or a scalar, kept in its `str()` form. -/
inductive Value where
  | na : Value
  | s (x : String) : Value
deriving DecidableEq, Repr

/-- Python / pandas `pd.notna`. -/
def notna : Value → Bool
  | .na => false
  | .s _ => true

/-- Python `str(v)`: a missing cell (NumPy `NaN`) stringifies as `"nan"`. -/
def pyStr : Value → String
  | .na => "nan"
  | .s x => x

/-- Python `str.lower` on one character, for the ASCII and Cyrillic letters
used by the program's configuration; other characters are left unchanged. -/
def charLower (c : Char) : Char :=
  if 65 ≤ c.toNat ∧ c.toNat ≤ 90 then Char.ofNat (c.toNat + 32)
  else if 0x410 ≤ c.toNat ∧ c.toNat ≤ 0x42F then Char.ofNat (c.toNat + 0x20)
  else if c.toNat = 0x401 then Char.ofNat 0x451
  else c

/-- Python `str.lower`. -/
def pyLower (t : String) : String :=
  String.mk (t.data.map charLower)

/-- The characters removed by Python `str.strip()`. -/
def pyIsSpace (c : Char) : Bool :=
  c = ' ' ∨ c = '\t' ∨ c = '\n' ∨ c = '\r' ∨ c = Char.ofNat 11 ∨ c = Char.ofNat 12

/-- Python `str.strip()`: drop whitespace from both ends. -/
def pyStrip (t : String) : String :=
  String.mk (((t.data.dropWhile pyIsSpace).reverse.dropWhile pyIsSpace).reverse)

/-- Substring test on character lists: does `pat` occur contiguously in the list? -/
def containsSubAux (pat : List Char) : List Char → Bool
  | [] => pat.isEmpty
  | c :: t => pat.isPrefixOf (c :: t) || containsSubAux pat t

/-- Python's `pat in t` substring containment. -/
def containsSub (t pat : String) : Bool :=
  containsSubAux pat.data t.data

/-- If `pat` heads the list, return the remainder; otherwise `none`. -/
def stripPre? : List Char → List Char → Option (List Char)
  | [], s => some s
  | _ :: _, [] => none
  | p :: ps, c :: cs => if p = c then stripPre? ps cs else none

/-- Fuelled worker for left-to-right, non-overlapping replacement. -/
def replaceAux (pat sub : List Char) : Nat → List Char → List Char
  | _, [] => []
  | 0, l => l
  | fuel + 1, c :: t =>
    match stripPre? pat (c :: t) with
    | some rest => sub ++ replaceAux pat sub fuel rest
    | none => c :: replaceAux pat sub fuel t

/-- Python `t.replace(pat, sub)` for a non-empty pattern: every left-to-right,
non-overlapping occurrence of `pat` is replaced. (The program only calls
`replace` with one fixed non-empty pattern.) -/
def pyReplace (t pat sub : String) : String :=
  if pat.data.isEmpty then t
  else String.mk (replaceAux pat.data sub.data t.data.length t.data)

/-- A DataFrame row: an association list from column name to cell value.
Looking a column up that the row does not carry yields missing, the value the
concatenated frame holds there. -/
abbrev Row := List (String × Value)

/-- Pandas `row[c]` (first matching column; missing outside the row's index). -/
def rowGet (r : Row) (c : String) : Value :=
  match r.find? (fun p => p.1 == c) with
  | some p => p.2
  | none => .na

/-- Pandas `c in row.index`. -/
def rowHas (r : Row) (c : String) : Bool :=
  r.any (fun p => p.1 == c)

/-- The script's `MAPPING` dictionary, in source (insertion) order. -/
def MAPPING : List (String × List String) := [
  ("Производитель", [
    "Бренд",
    "Производитель",
    "Заводская маркировка"]),
  ("Цена", [
    "Цена",
    "Розничная цена",
    "Цена со скидкой",
    "Стоимость",
    "Price",
    "РРЦ"]),
  ("Мощность в режиме охлаждения", [
    "Холодопроизводительность (кВт)",
    "Номинальная холодопроизводительность, кВт",
    "Номинальная холодопроизводительность",
    "Охлаждение (кВт)",
    "Произв. холод, кВт",
    "Производительность холод , кВт",
    "Холодопроизводительность",
    "Охлаждение (Вт)"]),
  ("Тип хладагента", [
    "Тип хладагента",
    "Марка фреона"]),
  ("Цвет", [
    "Цвет внутреннего блока",
    "Цвет прибора",
    "Цвет"]),
  ("Класс энергопотребления", [
    "Класс энергопотребления",
    "Класс энергоэффективности (охлаждение)",
    "Класс энергоэффективности EER (охлаждение)",
    "Класс энергетической эффективности"]),
  ("Инвертор/Тип компрессора", [
    "Инверторная технология",
    "Тип компрессора",
    "Инвертор",
    "Инверторный компрессор",
    "Тип управления компрессором"]),
  ("Основные режимы (режим работы)", [
    "Режим работы",
    "Основные режимы (режим работы)",
    "Режимы работы"]),
  ("Уровень шума", [
    "Уровень шума внутреннего блока, дБ(А)",
    "Уровень шума внутреннего блока",
    "Уровень звукового давления дБ(А)",
    "Мин. уровень шума , дБ(А)"]),
  ("Максимальная длина коммуникаций", [
    "Максимальная длина трассы",
    "Max.длина магистрали , м",
    "Длина трассы, м",
    "Максимальная длина труб, м"]),
  ("Модель", [
    "Название",
    "Модель",
    "Модель внутреннего блока"]),
  ("Изображение", [
    "Изображения",
    "Файлы"])]

/-- The script's `FILTER_KEYS` list of direct (free-text) filter columns. -/
def FILTER_KEYS : List String := [
  "Дополнительные фильтры тонкой очистки в комплекте",
  "Фильтра",
  "Воздушный фильтр"]

/-- The script's `YES_VALUES` affirmative set. -/
def YES_VALUES : List String := ["да", "+", "yes", "true", "1", "есть"]

/-- The marker phrase that designates a boolean-flag filter column. -/
def MARKER : String := "фильтр тонкой очистки"

/-- The phrase deleted from a boolean-flag column name to form its label. -/
def STRIP_PHRASE : String := "Дополнительный фильтр тонкой очистки "

/-- The identifier column name. -/
def IDENT : String := "Артикул"

/-- The derived filters column name. -/
def FILTER_COL : String := "Фильтры тонкой очистки воздуха"

/-- The manufacturer canonical field, the final sort key. -/
def MANUF : String := "Производитель"

/-- Step 1 of `extract_filters`: each direct filter column that is present in
the row's index, non-missing, and non-blank after trimming contributes its
stringified value, in `FILTER_KEYS` order. -/
def directContribs (row : Row) : List String :=
  FILTER_KEYS.filterMap (fun key =>
    if rowHas row key && notna (rowGet row key)
        && !(pyStrip (pyStr (rowGet row key))).isEmpty
    then some (pyStr (rowGet row key)) else none)

/-- The `boolean_cols` computation of `extract_filters`: columns of the
universe whose lowered name contains the marker phrase and that are not
direct filter columns, in column-universe order. -/
def boolean_cols (source_columns : List String) : List String :=
  source_columns.filter (fun c =>
    containsSub (pyLower c) MARKER && !FILTER_KEYS.contains c)

/-- Step 2 of `extract_filters`: each boolean-flag column whose value, trimmed
and lowered, is affirmative contributes the column name with every occurrence
of `STRIP_PHRASE` deleted. -/
def booleanContribs (row : Row) (source_columns : List String) : List String :=
  (boolean_cols source_columns).filterMap (fun col =>
    if YES_VALUES.contains (pyLower (pyStrip (pyStr (rowGet row col))))
    then some (pyReplace col STRIP_PHRASE "") else none)

/-- The script's `extract_filters(row, source_columns)`: direct contributions
then boolean-flag contributions, joined with `", "`, or missing if none. -/
def extract_filters (row : Row) (source_columns : List String) : Value :=
  let active := directContribs row ++ booleanContribs row source_columns
  if active.isEmpty then .na else .s (String.intercalate ", " active)

/-- A loaded source table: its (stripped) header and its rows, each row's
cells aligned positionally with the header. -/
structure Table where
  cols : List String
  rows : List (List Value)
deriving DecidableEq, Repr

/-- The value a row of table `t` holds in column `c` (missing if `t` has no
such column). -/
def tableCell (t : Table) (r : List Value) (c : String) : Value :=
  match t.cols.findIdx? (fun d => d == c) with
  | some i => r.getD i .na
  | none => .na

/-- Append the members of `cs` not already present (first-occurrence order). -/
def addNew (acc : List String) (cs : List String) : List String :=
  acc ++ cs.filter (fun c => !acc.contains c)

/-- The column universe of `pd.concat`: union of the tables' columns in order
of first appearance. -/
def unionCols (ts : List Table) : List String :=
  ts.foldl (fun acc t => addNew acc t.cols) []

/-- Re-index a row of table `t` on the column list `allCols`, missing-filling
the columns `t` does not have (the shape `pd.concat` gives every row). -/
def alignRow (allCols : List String) (t : Table) (r : List Value) : Row :=
  allCols.map (fun c => (c, tableCell t r c))

/-- The rows of `pd.concat(dataframes, axis=0, ignore_index=True)`: all
tables' rows stacked in order, re-indexed on the column union. -/
def concatRows (ts : List Table) : List Row :=
  (ts.map (fun t => t.rows.map (alignRow (unionCols ts) t))).flatten

/-- Concatenated rows, each tagged with its originating table's column list
(used to state the spec's per-origin filter-extraction claim). -/
def concatTagged (ts : List Table) : List (Row × List String) :=
  (ts.map (fun t => t.rows.map (fun r => (alignRow (unionCols ts) t r, t.cols)))).flatten

/-- The abort cause the specification calls `SchemaError`: the script logs
"Column 'Артикул' not found!" and returns without producing output. -/
inductive SchemaError where
  | missingIdentifier : SchemaError
deriving DecidableEq, Repr

/-- One row of `temp_df`: the identifier copied verbatim, then for each
canonical field the first `MAPPING` candidate present in the (global) column
list — the whole matched column is copied, so per row its value — and missing
when no candidate is present, then the derived filters field. -/
def canonicalRow (current_cols : List String) (r : Row) : Row :=
  (IDENT, rowGet r IDENT) ::
  (MAPPING.map (fun m =>
    (m.1, match m.2.find? (fun src => current_cols.contains src) with
          | some src => rowGet r src
          | none => Value.na))
  ++ [(FILTER_COL, extract_filters r current_cols)])

/-- The script's merge combinator `lambda x: x.dropna().iloc[0] if not
x.dropna().empty else np.nan`: first non-missing value, else missing. -/
def firstNonNA (vs : List Value) : Value :=
  match vs.find? (fun v => notna v) with
  | some v => v
  | none => .na

/-- The distinct non-missing identifier values of a row list. `groupby`
drops missing keys (`dropna=True` default); group order is settled by
`sortedKeys` below, so only the set matters here. -/
def uniqueKeys (rows : List Row) : List String :=
  (rows.filterMap (fun r => match rowGet r IDENT with
    | .s x => some x
    | .na => none)).dedup

/-- Code-point lexicographic strictly-less on character lists (the comparison
Python applies to strings, hence pandas to object sort keys). -/
def charsLt : List Char → List Char → Bool
  | [], [] => false
  | [], _ :: _ => true
  | _ :: _, [] => false
  | a :: as, b :: bs =>
    if a.toNat < b.toNat then true
    else if b.toNat < a.toNat then false
    else charsLt as bs

/-- Python string `a <= b` (code-point lexicographic). -/
def strLe (a b : String) : Bool := !(charsLt b.data a.data)

/-- Insert into a `le`-sorted list, before the first strictly-greater element. -/
def ordIns {α : Type} (le : α → α → Bool) (a : α) : List α → List α
  | [] => [a]
  | b :: l => if le a b then a :: b :: l else b :: ordIns le a l

/-- Insertion sort (stable for a total `le`). -/
def insSort {α : Type} (le : α → α → Bool) : List α → List α
  | [] => []
  | a :: l => ordIns le a (insSort le l)

/-- Group keys in the order `groupby(sort=True)` emits the groups: ascending
by key. The keys are distinct, so any correct ascending sort produces the
same list as pandas' does. -/
def sortedKeys (ks : List String) : List String :=
  insSort strLe ks

/-- The rows of one identifier group, in their original (concatenation) order. -/
def groupRows (rows : List Row) (k : String) : List Row :=
  rows.filter (fun r => rowGet r IDENT == Value.s k)

/-- The merged row of one group: the group key under `IDENT` (as
`as_index=False` re-inserts it), then each remaining column aggregated by
`firstNonNA` over the group's rows in original order. -/
def mergedRow (rows : List Row) (k : String) : Row :=
  (IDENT, Value.s k) ::
  (MAPPING.map Prod.fst ++ [FILTER_COL]).map (fun c =>
    (c, firstNonNA ((groupRows rows k).map (fun r => rowGet r c))))

/-- `temp_df.groupby("Артикул", as_index=False).agg(...)`: one merged row per
distinct non-missing identifier, groups in ascending key order. -/
def merged (rows : List Row) : List Row :=
  (sortedKeys (uniqueKeys rows)).map (mergedRow rows)

/-- The manufacturer sort key of a merged row, as a string (only applied to
rows whose manufacturer is non-missing). -/
def manKey (r : Row) : String :=
  pyStr (rowGet r MANUF)

/-- The final `sort_values(by="Производитель", na_position='last')`:
non-missing manufacturer keys sorted ascending, missing-keyed rows appended
in their prior order. pandas' default `kind='quicksort'` leaves the relative
order of equal keys implementation-defined; this model uses a stable
insertion sort, and no theorem below relies on the model's tie order. -/
def sortFinal (rows : List Row) : List Row :=
  insSort (fun a b => strLe (manKey a) (manKey b))
      (rows.filter (fun r => notna (rowGet r MANUF)))
    ++ rows.filter (fun r => !notna (rowGet r MANUF))

/-- The script's `process_catalog`, from the already-loaded tables (`load_data`
succeeded, so the table list is non-empty) up to the final row list handed to
`to_excel`: abort with the missing-identifier schema error when the column
union lacks `"Артикул"`; otherwise build `temp_df`, merge duplicate
identifiers, and sort by manufacturer. -/
def process_catalog (ts : List Table) : Except SchemaError (List Row) :=
  let current_cols := unionCols ts
  if current_cols.contains IDENT then
    .ok (sortFinal (merged ((concatRows ts).map (canonicalRow current_cols))))
  else
    .error .missingIdentifier

/-! Claim-side definitions (phrased from the specification, for comparison
with the code's behaviour) and concrete example inputs. -/

/-- The canonical schema: identifier, the mapped fields in `MAPPING` order,
then the derived filters field. -/
def CANON_COLS : List String :=
  IDENT :: (MAPPING.map Prod.fst ++ [FILTER_COL])

/-- The non-missing identifier values of the loaded source rows, in order. -/
def sourceIds (ts : List Table) : List String :=
  (concatRows ts).filterMap (fun r => match rowGet r IDENT with
    | .s x => some x
    | .na => none)

/-- Modelled from the spec: the label "obtained by stripping the fixed prefix"
`STRIP_PHRASE` from a boolean-flag column name — drop the phrase when the name
starts with it, otherwise leave the name unchanged. Stated for comparison with
the code's `replace`, which deletes every occurrence of the phrase. -/
def stripPreLabel (name : String) : String :=
  if STRIP_PHRASE.data.isPrefixOf name.data
  then String.mk (name.data.drop STRIP_PHRASE.data.length)
  else name

/-- Modelled from the spec: the filters column as §4.4 step 3 describes it —
each row's filters extracted against its *originating* table's column set.
Stated for comparison with the code, which passes the global column union. -/
def originFilters (ts : List Table) : List Value :=
  (concatTagged ts).map (fun rc => extract_filters rc.1 rc.2)

/-- The filters value of the output row carrying identifier `k`. -/
def outFilterOf (ts : List Table) (k : String) : Option Value :=
  match process_catalog ts with
  | .error _ => none
  | .ok out => (out.find? (fun r => rowGet r IDENT == Value.s k)).map
      (fun r => rowGet r FILTER_COL)

/-- The input with every row of missing identifier removed at the source. -/
def dropNaId (ts : List Table) : List Table :=
  ts.map (fun t => ⟨t.cols, t.rows.filter (fun r => notna (tableCell t r IDENT))⟩)

/-- Example: one table with duplicate identifiers, a missing price, and a row
with a missing identifier. -/
def tsMerge : List Table :=
  [⟨["Артикул", "Цена"],
    [[.s "X", .na], [.s "X", .s "100"], [.s "Y", .s "7"], [.na, .s "9"]]⟩]

/-- Example: a table that carries the second `Цена` alias only. -/
def tsAlias : List Table :=
  [⟨["Артикул", "Розничная цена"], [[.s "X", .s "55"]]⟩]

/-- Example: a table without the identifier column. -/
def tsNoId : List Table :=
  [⟨["Бренд"], [[.s "LG"]]⟩]

/-- Example: two tables sharing a boolean-flag column, the second table also
carrying a second one, so that its own column order differs from the
concatenation's column-union order. -/
def tsTwo : List Table :=
  [⟨["Артикул", "Дополнительный фильтр тонкой очистки B"],
    [[.s "A1", .s "нет"]]⟩,
   ⟨["Артикул", "Дополнительный фильтр тонкой очистки A",
     "Дополнительный фильтр тонкой очистки B"],
    [[.s "A2", .s "да", .s "да"]]⟩]

/-- Example: a boolean-flag column name in which the strip phrase occurs
internally rather than as a leading phrase. -/
def oddCol : String := "Угольный Дополнительный фильтр тонкой очистки X"

/-- Example row holding an affirmative value in `oddCol`. -/
def rowOdd : Row := [(oddCol, .s "да")]

/-- Example row whose only filter source is a direct column valued "HEPA". -/
def rowHepa : Row := [("Артикул", .s "X"), ("Воздушный фильтр", .s "HEPA")]

/-- The second concatenated row of `tsTwo` (its row from the second table),
re-indexed on the column union. -/
def rowA2 : Row := [("Артикул", .s "A2"),
  ("Дополнительный фильтр тонкой очистки B", .s "да"),
  ("Дополнительный фильтр тонкой очистки A", .s "да")]

/-! Association-list and sorting infrastructure lemmas. -/

theorem rowGet_cons (k : String) (v : Value) (r : Row) (c : String) :
    rowGet ((k, v) :: r) c = if k = c then v else rowGet r c := by
  by_cases h : k = c
  · simp [rowGet, List.find?_cons, h]
  · simp [rowGet, List.find?_cons, h]

theorem rowGet_map_self (l : List String) (f : String → Value) (c : String) (h : c ∈ l) :
    rowGet (l.map (fun d => (d, f d))) c = f c := by
  induction l with
  | nil => cases h
  | cons d t ih =>
    rw [List.map_cons, rowGet_cons]
    by_cases hd : d = c
    · rw [if_pos hd, hd]
    · rw [if_neg hd]
      exact ih (List.mem_of_ne_of_mem (fun hh => hd hh.symm) h)

theorem rowHas_iff (r : Row) (c : String) :
    rowHas r c = true ↔ c ∈ r.map Prod.fst := by
  simp only [rowHas, List.any_eq_true, List.mem_map, beq_iff_eq]

theorem rowHas_cons (k : String) (v : Value) (t : Row) (c : String) :
    rowHas ((k, v) :: t) c = ((k == c) || rowHas t c) := by
  simp [rowHas, List.any_cons]

theorem rowGet_append (l r : Row) (c : String) :
    rowGet (l ++ r) c = if rowHas l c = true then rowGet l c else rowGet r c := by
  induction l with
  | nil => simp [rowHas]
  | cons p t ih =>
    rcases p with ⟨k, v⟩
    by_cases h : k = c
    · rw [List.cons_append, rowGet_cons, if_pos h, rowHas_cons, if_pos (by simp [h]),
        rowGet_cons, if_pos h]
    · rw [List.cons_append, rowGet_cons, if_neg h, ih, rowHas_cons,
        (by simp [h] : (k == c) = false), Bool.false_or]
      by_cases ht : rowHas t c = true
      · rw [if_pos ht, if_pos ht, rowGet_cons, if_neg h]
      · rw [if_neg ht, if_neg ht]

theorem filterMap_if {α β : Type} (p : α → Bool) (f : α → β) (l : List α) :
    l.filterMap (fun a => if p a = true then some (f a) else none) = (l.filter p).map f := by
  induction l with
  | nil => rfl
  | cons a t ih =>
    by_cases h : p a = true <;> simp [List.filterMap_cons, List.filter_cons, h, ih]

theorem ordIns_perm {α : Type} (le : α → α → Bool) (a : α) (l : List α) :
    List.Perm (ordIns le a l) (a :: l) := by
  induction l with
  | nil => exact List.Perm.refl _
  | cons b t ih =>
    rw [ordIns]
    by_cases h : le a b = true
    · rw [if_pos h]
    · rw [if_neg h]
      exact (ih.cons b).trans (List.Perm.swap a b t)

theorem insSort_perm {α : Type} (le : α → α → Bool) (l : List α) :
    List.Perm (insSort le l) l := by
  induction l with
  | nil => exact List.Perm.refl _
  | cons a t ih => exact (ordIns_perm le a (insSort le t)).trans (ih.cons a)

theorem sortFinal_perm (rows : List Row) : List.Perm (sortFinal rows) rows := by
  unfold sortFinal
  exact ((insSort_perm _ _).append_right _).trans (List.filter_append_perm _ rows)

theorem mem_sortFinal (rows : List Row) (r : Row) :
    r ∈ sortFinal rows ↔ r ∈ rows :=
  (sortFinal_perm rows).mem_iff

theorem length_sortFinal (rows : List Row) :
    (sortFinal rows).length = rows.length :=
  (sortFinal_perm rows).length_eq

theorem mem_uniqueKeys (rows : List Row) (k : String) :
    k ∈ uniqueKeys rows ↔ ∃ r ∈ rows, rowGet r IDENT = Value.s k := by
  unfold uniqueKeys
  rw [List.mem_dedup, List.mem_filterMap]
  constructor
  · rintro ⟨r, hr, he⟩
    refine ⟨r, hr, ?_⟩
    cases hv : rowGet r IDENT with
    | na => rw [hv] at he; cases he
    | s x => rw [hv] at he; cases he; rfl
  · rintro ⟨r, hr, he⟩
    exact ⟨r, hr, by rw [he]⟩

theorem mem_sortedKeys (ks : List String) (k : String) :
    k ∈ sortedKeys ks ↔ k ∈ ks :=
  (insSort_perm _ ks).mem_iff

theorem length_sortedKeys (ks : List String) :
    (sortedKeys ks).length = ks.length :=
  (insSort_perm _ ks).length_eq

theorem mergedRow_ident (rows : List Row) (k : String) :
    rowGet (mergedRow rows k) IDENT = Value.s k := by
  rw [mergedRow, rowGet_cons, if_pos rfl]

theorem mergedRow_field (rows : List Row) (k c : String)
    (hc : c ∈ MAPPING.map Prod.fst ++ [FILTER_COL]) :
    rowGet (mergedRow rows k) c =
      firstNonNA ((groupRows rows k).map (fun r => rowGet r c)) := by
  have hni : IDENT ∉ MAPPING.map Prod.fst ++ [FILTER_COL] := by decide
  have hic : ¬(IDENT = c) := fun he => hni (by rw [he]; exact hc)
  rw [mergedRow, rowGet_cons, if_neg hic, rowGet_map_self _ _ _ hc]

theorem mergedRow_cols (rows : List Row) (k : String) :
    (mergedRow rows k).map Prod.fst = CANON_COLS := by
  simp [mergedRow, CANON_COLS, List.map_map, Function.comp_def]

theorem canonicalRow_ident (U : List String) (r : Row) :
    rowGet (canonicalRow U r) IDENT = rowGet r IDENT := by
  rw [canonicalRow, rowGet_cons, if_pos rfl]

theorem rowGet_map_assoc (l : List (String × List String))
    (g : String × List String → Value) (target : String) (srcs : List String)
    (hnd : (l.map Prod.fst).Nodup) (hmem : (target, srcs) ∈ l) :
    rowGet (l.map (fun m => (m.1, g m))) target = g (target, srcs) := by
  induction l with
  | nil => cases hmem
  | cons m t ih =>
    simp only [List.map_cons] at hnd ⊢
    have hnd2 := (List.nodup_cons.mp hnd).2
    have hnm := (List.nodup_cons.mp hnd).1
    rcases List.mem_cons.mp hmem with h | h
    · subst h
      rw [rowGet_cons, if_pos rfl]
    · by_cases he : m.1 = target
      · exact absurd (List.mem_map.mpr ⟨(target, srcs), h, he.symm ▸ rfl⟩) (he ▸ hnm)
      · rw [rowGet_cons, if_neg he]
        exact ih hnd2 h

theorem rowHas_map_assoc (l : List (String × List String))
    (g : String × List String → Value) (c : String) :
    rowHas (l.map (fun m => (m.1, g m))) c = true ↔ c ∈ l.map Prod.fst := by
  rw [rowHas_iff, List.map_map]
  simp [Function.comp_def]

theorem canonicalRow_target (U : List String) (r : Row) (target : String)
    (srcs : List String) (hmem : (target, srcs) ∈ MAPPING) :
    rowGet (canonicalRow U r) target =
      (match srcs.find? (fun src => U.contains src) with
       | some src => rowGet r src
       | none => Value.na) := by
  have hit : IDENT ≠ target := fun he =>
    (by decide : IDENT ∉ MAPPING.map Prod.fst)
      (List.mem_map.mpr ⟨(target, srcs), hmem, he.symm⟩)
  rw [canonicalRow, rowGet_cons, if_neg hit, rowGet_append,
    if_pos ((rowHas_map_assoc _ _ _).mpr (List.mem_map.mpr ⟨(target, srcs), hmem, rfl⟩)),
    rowGet_map_assoc _ _ _ _ (by decide) hmem]

theorem canonicalRow_filters (U : List String) (r : Row) :
    rowGet (canonicalRow U r) FILTER_COL = extract_filters r U := by
  rw [canonicalRow, rowGet_cons, if_neg (by decide), rowGet_append,
    if_neg (fun hh => (by decide : FILTER_COL ∉ MAPPING.map Prod.fst)
      ((rowHas_map_assoc _ _ _).mp hh)),
    rowGet_cons, if_pos rfl]

theorem process_catalog_ok (ts : List Table)
    (h : (unionCols ts).contains IDENT = true) :
    process_catalog ts =
      .ok (sortFinal (merged ((concatRows ts).map (canonicalRow (unionCols ts))))) := by
  have hm : IDENT ∈ unionCols ts := by simpa using h
  simp [process_catalog, hm]

theorem process_catalog_err (ts : List Table)
    (h : (unionCols ts).contains IDENT = false) :
    process_catalog ts = .error .missingIdentifier := by
  have hm : IDENT ∉ unionCols ts := by simpa using h
  simp [process_catalog, hm]

theorem find?_first {α : Type} (p : α → Bool) (pre post : List α) (a : α)
    (ha : p a = true) (hpre : ∀ x ∈ pre, p x = false) :
    (pre ++ a :: post).find? p = some a := by
  induction pre with
  | nil => simp [List.find?_cons, ha]
  | cons b t ih =>
    have hb : p b = false := hpre b (List.mem_cons_self b t)
    simp only [List.cons_append, List.find?_cons, hb]
    exact ih (fun x hx => hpre x (List.mem_cons_of_mem b hx))

theorem filterMap_filter_drop {α β : Type} (f : α → Option β) (q : α → Bool)
    (l : List α) (h : ∀ x, q x = false → f x = none) :
    (l.filter q).filterMap f = l.filterMap f := by
  induction l with
  | nil => rfl
  | cons a t ih =>
    by_cases hq : q a = true
    · simp [List.filter_cons, hq, List.filterMap_cons, ih]
    · have := h a (Bool.eq_false_iff.mpr hq)
      simp [List.filter_cons, hq, List.filterMap_cons, this, ih]

/-! Claim C3: missing identifier aborts the pipeline. -/

/-- Claim C3: for every loaded dataset whose column universe does not contain
the identifier column "Артикул", the pipeline fails with the schema error
(missing required identifier) and aborts producing no output rows. -/
theorem identifier_required_abort (ts : List Table) (hne : ts ≠ [])
    (h : IDENT ∉ unionCols ts) :
    process_catalog ts = .error .missingIdentifier :=
  process_catalog_err ts (by simpa using h)

/-- Witness for C3 at a concrete table without the identifier column. -/
theorem identifier_required_abort_witness :
    (tsNoId ≠ [] ∧ IDENT ∉ unionCols tsNoId) ∧
      process_catalog tsNoId = .error .missingIdentifier :=
  ⟨by decide, identifier_required_abort tsNoId (by decide) (by decide)⟩

/-! Claim C1: duplicate merge is a per-field first-non-missing reduction. -/

/-- Claim C1: for every group of canonicalized rows sharing one identifier
value and every canonical field, the merged value equals the first
non-missing value among the group's rows taken in original (concatenation)
row order — missing when every row of the group is missing there — and the
merge raises no conflict error (the pipeline returns rows for every group,
however the rows disagree). -/
theorem merge_first_non_missing (ts : List Table) (k c : String) (hne : ts ≠ [])
    (hid : IDENT ∈ unionCols ts)
    (hk : ∃ r ∈ (concatRows ts).map (canonicalRow (unionCols ts)),
      rowGet r IDENT = Value.s k)
    (hc : c ∈ MAPPING.map Prod.fst ++ [FILTER_COL]) :
    ∃ out, process_catalog ts = .ok out ∧
      ∃ r ∈ out, rowGet r IDENT = Value.s k ∧
        rowGet r c = firstNonNA
          ((((concatRows ts).map (canonicalRow (unionCols ts))).filter
            (fun row => rowGet row IDENT == Value.s k)).map
            (fun row => rowGet row c)) := by
  have hcont : (unionCols ts).contains IDENT = true := by simpa using hid
  refine ⟨_, process_catalog_ok ts hcont, ?_⟩
  set temp := (concatRows ts).map (canonicalRow (unionCols ts)) with htemp
  have hkk : k ∈ uniqueKeys temp := (mem_uniqueKeys temp k).mpr hk
  have hks : k ∈ sortedKeys (uniqueKeys temp) := (mem_sortedKeys _ _).mpr hkk
  refine ⟨mergedRow temp k, ?_, mergedRow_ident temp k, ?_⟩
  · rw [mem_sortFinal, merged]
    exact List.mem_map.mpr ⟨k, hks, rfl⟩
  · rw [mergedRow_field temp k c hc]
    rfl

/-- Witness for C1: identifier "X" appears twice with prices (missing, 100);
the merged price is 100, the first non-missing value in row order. -/
theorem merge_first_non_missing_witness :
    (tsMerge ≠ [] ∧ IDENT ∈ unionCols tsMerge ∧
      (∃ r ∈ (concatRows tsMerge).map (canonicalRow (unionCols tsMerge)),
        rowGet r IDENT = Value.s "X") ∧
      "Цена" ∈ MAPPING.map Prod.fst ++ [FILTER_COL]) ∧
    (∃ out, process_catalog tsMerge = .ok out ∧
      ∃ r ∈ out, rowGet r IDENT = Value.s "X" ∧
        rowGet r "Цена" = firstNonNA
          ((((concatRows tsMerge).map (canonicalRow (unionCols tsMerge))).filter
            (fun row => rowGet row IDENT == Value.s "X")).map
            (fun row => rowGet row "Цена"))) :=
  ⟨by decide, merge_first_non_missing tsMerge "X" "Цена" (by decide) (by decide)
    (by decide) (by decide)⟩

/-! Claim C2: alias resolution is priority-ordered and global per dataset. -/

/-- Claim C2: for every canonical field with candidate list, the first
candidate present anywhere in the dataset's column universe is bound and that
single column supplies the field's value for every row; if no candidate is
present the field is missing for all rows and the pipeline continues. -/
theorem alias_priority_global (ts : List Table) (target src : String)
    (srcs pre post : List String) (hne : ts ≠ [])
    (hmem : (target, srcs) ∈ MAPPING) :
    (srcs = pre ++ src :: post → src ∈ unionCols ts →
      (∀ s ∈ pre, s ∉ unionCols ts) →
      ∀ r ∈ concatRows ts,
        rowGet (canonicalRow (unionCols ts) r) target = rowGet r src) ∧
    ((∀ s ∈ srcs, s ∉ unionCols ts) →
      (∀ r ∈ concatRows ts,
        rowGet (canonicalRow (unionCols ts) r) target = Value.na) ∧
      (IDENT ∈ unionCols ts → ∃ out, process_catalog ts = .ok out)) := by
  constructor
  · intro heq hsrc hpre r _
    rw [canonicalRow_target _ _ _ _ hmem, heq,
      find?_first _ _ _ _ (by simpa using hsrc)
        (fun s hs => by simpa using hpre s hs)]
  · intro hall
    constructor
    · intro r _
      rw [canonicalRow_target _ _ _ _ hmem,
        List.find?_eq_none.mpr (fun s hs => by simpa using hall s hs)]
    · intro hid
      exact ⟨_, process_catalog_ok ts (by simpa using hid)⟩

/-- Witness for C2 at a table carrying only the second alias of "Цена":
the first alias is absent, so the second one supplies the value. -/
theorem alias_priority_global_witness :
    (tsAlias ≠ [] ∧
      ("Цена", ["Цена", "Розничная цена", "Цена со скидкой", "Стоимость",
        "Price", "РРЦ"]) ∈ MAPPING) ∧
    ((["Цена", "Розничная цена", "Цена со скидкой", "Стоимость", "Price",
        "РРЦ"] = ["Цена"] ++ "Розничная цена" ::
          ["Цена со скидкой", "Стоимость", "Price", "РРЦ"] →
      "Розничная цена" ∈ unionCols tsAlias →
      (∀ s ∈ ["Цена"], s ∉ unionCols tsAlias) →
      ∀ r ∈ concatRows tsAlias,
        rowGet (canonicalRow (unionCols tsAlias) r) "Цена" =
          rowGet r "Розничная цена") ∧
    ((∀ s ∈ ["Цена", "Розничная цена", "Цена со скидкой", "Стоимость",
        "Price", "РРЦ"], s ∉ unionCols tsAlias) →
      (∀ r ∈ concatRows tsAlias,
        rowGet (canonicalRow (unionCols tsAlias) r) "Цена" = Value.na) ∧
      (IDENT ∈ unionCols tsAlias →
        ∃ out, process_catalog tsAlias = .ok out))) :=
  ⟨⟨by decide, by decide⟩,
    alias_priority_global tsAlias "Цена" "Розничная цена"
      ["Цена", "Розничная цена", "Цена со скидкой", "Стоимость", "Price", "РРЦ"]
      ["Цена"] ["Цена со скидкой", "Стоимость", "Price", "РРЦ"]
      (by decide) (by decide)⟩

/-! Claim C6: one output row per distinct identifier. -/

/-- Claim C6: for every successfully loaded dataset, the number of rows in the
final output equals the number of distinct identifier values across all
loaded source rows (missing marks the absence of an identifier value and is
not itself a value; per C10 such rows are dropped). -/
theorem distinct_identifier_count (ts : List Table) (hne : ts ≠ [])
    (hid : IDENT ∈ unionCols ts) :
    ∃ out, process_catalog ts = .ok out ∧
      out.length = (sourceIds ts).dedup.length := by
  have hcont : (unionCols ts).contains IDENT = true := by simpa using hid
  refine ⟨_, process_catalog_ok ts hcont, ?_⟩
  rw [length_sortFinal, merged, List.length_map, length_sortedKeys]
  have huk : uniqueKeys ((concatRows ts).map (canonicalRow (unionCols ts)))
      = (sourceIds ts).dedup := by
    unfold uniqueKeys sourceIds
    congr 1
    rw [List.filterMap_map]
    congr 1
  rw [huk]

/-- Witness for C6: three of four source rows carry an identifier, two
distinct values among them, and the output has exactly two rows. -/
theorem distinct_identifier_count_witness :
    (tsMerge ≠ [] ∧ IDENT ∈ unionCols tsMerge) ∧
    (∃ out, process_catalog tsMerge = .ok out ∧
      out.length = (sourceIds tsMerge).dedup.length) :=
  ⟨by decide, distinct_identifier_count tsMerge (by decide) (by decide)⟩

/-! Claim C9: every output row has exactly the canonical schema. -/

/-- Claim C9: every row of the final output has exactly the fixed canonical
fields — the identifier, the twelve fields of the alias map, and the derived
filters field — in that fixed order and nothing else. -/
theorem canonical_schema_invariant (ts : List Table) (hne : ts ≠ [])
    (hid : IDENT ∈ unionCols ts) :
    (MAPPING.map Prod.fst).length = 12 ∧
    ∃ out, process_catalog ts = .ok out ∧
      ∀ r ∈ out, r.map Prod.fst = CANON_COLS := by
  refine ⟨by decide, _, process_catalog_ok ts (by simpa using hid), ?_⟩
  intro r hr
  rw [mem_sortFinal] at hr
  unfold merged at hr
  rcases List.mem_map.mp hr with ⟨k, _, he⟩
  rw [← he, mergedRow_cols]

/-- Witness for C9 at a concrete input. -/
theorem canonical_schema_invariant_witness :
    (tsMerge ≠ [] ∧ IDENT ∈ unionCols tsMerge) ∧
    ((MAPPING.map Prod.fst).length = 12 ∧
      ∃ out, process_catalog tsMerge = .ok out ∧
        ∀ r ∈ out, r.map Prod.fst = CANON_COLS) :=
  ⟨by decide, canonical_schema_invariant tsMerge (by decide) (by decide)⟩

/-! Claim C10: rows with a missing identifier are silently dropped. -/

theorem unionCols_dropNaId (ts : List Table) :
    unionCols (dropNaId ts) = unionCols ts := by
  unfold unionCols dropNaId
  rw [List.foldl_map]

theorem rowGet_alignRow (U : List String) (t : Table) (r : List Value)
    (c : String) (hc : c ∈ U) :
    rowGet (alignRow U t r) c = tableCell t r c :=
  rowGet_map_self U _ c hc

theorem concatRows_dropNaId (ts : List Table) (hid : IDENT ∈ unionCols ts) :
    concatRows (dropNaId ts) =
      (concatRows ts).filter (fun r => notna (rowGet r IDENT)) := by
  unfold concatRows
  rw [unionCols_dropNaId, List.filter_flatten, dropNaId, List.map_map,
    List.map_map]
  congr 1
  apply List.map_congr_left
  intro t ht
  simp only [Function.comp_def]
  rw [List.filter_map]
  congr 1
  apply List.filter_congr
  intro r hr
  simp [Function.comp_def, rowGet_alignRow _ _ _ _ hid]

theorem temp_dropNaId (ts : List Table) (hid : IDENT ∈ unionCols ts) :
    (concatRows (dropNaId ts)).map (canonicalRow (unionCols (dropNaId ts))) =
      ((concatRows ts).map (canonicalRow (unionCols ts))).filter
        (fun row => notna (rowGet row IDENT)) := by
  rw [unionCols_dropNaId, concatRows_dropNaId ts hid, List.filter_map]
  congr 1

theorem uniqueKeys_filter_notna (rows : List Row) :
    uniqueKeys (rows.filter (fun row => notna (rowGet row IDENT))) =
      uniqueKeys rows := by
  unfold uniqueKeys
  congr 1
  apply filterMap_filter_drop
  intro r hq
  cases hv : rowGet r IDENT with
  | na => simp [hv]
  | s x => rw [hv] at hq; simp [notna] at hq

theorem groupRows_filter_notna (rows : List Row) (k : String) :
    groupRows (rows.filter (fun row => notna (rowGet row IDENT))) k =
      groupRows rows k := by
  unfold groupRows
  rw [List.filter_filter]
  apply List.filter_congr
  intro r hr
  by_cases hb : (rowGet r IDENT == Value.s k) = true
  · have hv : rowGet r IDENT = Value.s k := by simpa using hb
    simp [hv, notna]
  · have hb' : (rowGet r IDENT == Value.s k) = false := by simpa using hb
    simp [hb']

/-- Claim C10: a source row whose identifier is missing is silently excluded
by the identifier grouping: every output row has a non-missing identifier,
and removing all missing-identifier rows from the input leaves the output
(produced without any error) unchanged. -/
theorem missing_identifier_rows_dropped (ts : List Table) (hne : ts ≠ [])
    (hid : IDENT ∈ unionCols ts) :
    ∃ out, process_catalog ts = .ok out ∧
      (∀ r ∈ out, rowGet r IDENT ≠ Value.na) ∧
      process_catalog (dropNaId ts) = .ok out := by
  have hcont : (unionCols ts).contains IDENT = true := by simpa using hid
  have hcont2 : (unionCols (dropNaId ts)).contains IDENT = true := by
    rw [unionCols_dropNaId]; exact hcont
  refine ⟨_, process_catalog_ok ts hcont, ?_, ?_⟩
  · intro r hr
    rw [mem_sortFinal] at hr
    unfold merged at hr
    rcases List.mem_map.mp hr with ⟨k, _, he⟩
    rw [← he, mergedRow_ident]
    intro hcontra
    cases hcontra
  · rw [process_catalog_ok _ hcont2, temp_dropNaId ts hid]
    have hm : merged ((((concatRows ts).map (canonicalRow (unionCols ts))).filter
        (fun row => notna (rowGet row IDENT)))) =
        merged ((concatRows ts).map (canonicalRow (unionCols ts))) := by
      unfold merged
      rw [uniqueKeys_filter_notna]
      apply List.map_congr_left
      intro k hk
      unfold mergedRow
      rw [groupRows_filter_notna]
    rw [hm]

/-- Witness for C10: the missing-identifier row of `tsMerge` is dropped. -/
theorem missing_identifier_rows_dropped_witness :
    (tsMerge ≠ [] ∧ IDENT ∈ unionCols tsMerge) ∧
    (∃ out, process_catalog tsMerge = .ok out ∧
      (∀ r ∈ out, rowGet r IDENT ≠ Value.na) ∧
      process_catalog (dropNaId tsMerge) = .ok out) :=
  ⟨by decide, missing_identifier_rows_dropped tsMerge (by decide) (by decide)⟩

/-! Claim C4: which column set the filter extraction sees. -/

theorem na_not_affirmative :
    YES_VALUES.contains (pyLower (pyStrip (pyStr Value.na))) = false := by decide

theorem boolean_cols_filter (q : String → Bool) (cols : List String) :
    boolean_cols (cols.filter q) = (boolean_cols cols).filter q := by
  unfold boolean_cols
  rw [List.filter_filter, List.filter_filter]
  apply List.filter_congr
  intro c hc
  rw [Bool.and_comm]

theorem booleanContribs_filter_notna (row : Row) (cols : List String) :
    booleanContribs row (cols.filter (fun c => notna (rowGet row c))) =
      booleanContribs row cols := by
  unfold booleanContribs
  rw [boolean_cols_filter]
  apply filterMap_filter_drop
  intro c hq
  have hv : rowGet row c = Value.na := by
    cases hveq : rowGet row c with
    | na => rfl
    | s x => rw [hveq] at hq; simp [notna] at hq
  rw [hv, if_neg (by decide)]

theorem extract_filters_filter_notna (row : Row) (cols : List String) :
    extract_filters row cols =
      extract_filters row (cols.filter (fun c => notna (rowGet row c))) := by
  simp only [extract_filters, booleanContribs_filter_notna]

/-- Claim C4 counterexample: in `tsTwo` the two shared boolean-flag columns
appear in a different order in the second table than in the column union, so
the row "A2" gets filters "B, A" (global-union order) where extraction against
its originating table's column set would give "A, B": the filters field is not
computed from the originating table's column set. -/
theorem filters_origin_counterexample :
    outFilterOf tsTwo "A2" = some (Value.s "B, A") ∧
    originFilters tsTwo = [Value.na, Value.s "A, B"] ∧
    (concatTagged tsTwo).map (fun rc => rowGet rc.1 IDENT) =
      [Value.s "A1", Value.s "A2"] ∧
    Value.s "B, A" ≠ Value.s "A, B" :=
  ⟨by decide, by decide, by decide, by decide⟩

/-- Claim C4 (amended): for every row, the filters field is computed from the
global column union of all tables (not the originating table's column set);
a boolean-flag column that never existed in a row's source table holds
missing for that row, and missing-valued columns never contribute — removing
them from the scanned universe leaves the extraction unchanged — though the
code does scan them, in column-union order. -/
theorem filters_from_global_union (ts : List Table) (r : Row) (oc : List String)
    (hmem : (r, oc) ∈ concatTagged ts) :
    rowGet (canonicalRow (unionCols ts) r) FILTER_COL =
      extract_filters r (unionCols ts) ∧
    extract_filters r (unionCols ts) =
      extract_filters r ((unionCols ts).filter (fun c => notna (rowGet r c))) ∧
    ∀ c ∈ unionCols ts, c ∉ oc → rowGet r c = Value.na := by
  refine ⟨canonicalRow_filters _ _, extract_filters_filter_notna _ _, ?_⟩
  rcases List.mem_flatten.mp hmem with ⟨chunk, hchunk, hrc⟩
  rcases List.mem_map.mp hchunk with ⟨t, ht, rfl⟩
  rcases List.mem_map.mp hrc with ⟨rw0, hrw, heq⟩
  have h1 : alignRow (unionCols ts) t rw0 = r := congrArg Prod.fst heq
  have h2 : t.cols = oc := congrArg Prod.snd heq
  intro c hc hnoc
  have hnc : c ∉ t.cols := by rw [h2]; exact hnoc
  rw [← h1, rowGet_alignRow _ _ _ _ hc]
  unfold tableCell
  rw [List.findIdx?_eq_none_iff.mpr (fun x hx => by
    have hxc : x ≠ c := fun hxeq => hnc (hxeq ▸ hx)
    simpa using hxc)]

/-- Witness for the amended C4 at the second row of `tsTwo`. -/
theorem filters_from_global_union_witness :
    ((rowA2, ["Артикул", "Дополнительный фильтр тонкой очистки A",
      "Дополнительный фильтр тонкой очистки B"]) ∈ concatTagged tsTwo) ∧
    (rowGet (canonicalRow (unionCols tsTwo) rowA2) FILTER_COL =
        extract_filters rowA2 (unionCols tsTwo) ∧
      extract_filters rowA2 (unionCols tsTwo) =
        extract_filters rowA2 ((unionCols tsTwo).filter
          (fun c => notna (rowGet rowA2 c))) ∧
      ∀ c ∈ unionCols tsTwo,
        c ∉ ["Артикул", "Дополнительный фильтр тонкой очистки A",
          "Дополнительный фильтр тонкой очистки B"] →
          rowGet rowA2 c = Value.na) :=
  ⟨by decide, filters_from_global_union tsTwo rowA2 _ (by decide)⟩

/-! Claim C7: boolean-flag filter extraction. -/

/-- Claim C7 counterexample: `oddCol` is a boolean-flag column (it contains
the marker phrase, is not a direct filter column) and its value "да" is
affirmative, but the code's label is "Угольный X" — the strip phrase deleted
from the middle of the name — whereas stripping it as a prefix would leave
the name unchanged, so the claimed filters value is refuted. -/
theorem boolean_label_counterexample :
    containsSub (pyLower oddCol) MARKER = true ∧
    oddCol ∉ FILTER_KEYS ∧
    pyLower (pyStrip (pyStr (rowGet rowOdd oddCol))) ∈ YES_VALUES ∧
    extract_filters rowOdd [oddCol] = Value.s "Угольный X" ∧
    stripPreLabel oddCol = oddCol ∧
    extract_filters rowOdd [oddCol] ≠ Value.s (stripPreLabel oddCol) :=
  ⟨by decide, by decide, by decide, by decide, by decide, by decide⟩

/-- Claim C7 (amended): the boolean-flag columns are exactly those columns of
the universe whose name contains the marker phrase case-insensitively and
that are not direct filter columns; in stable column-universe order, such a
column contributes the label obtained by deleting every occurrence of the
fixed phrase from its name (prefix-stripping whenever the phrase occurs only
as a leading phrase) iff the row's value, trimmed and lowercased, is in the
affirmative set; a missing value is never affirmative, and never an error. -/
theorem boolean_flag_extraction (row : Row) (source_columns : List String) :
    booleanContribs row source_columns =
      (source_columns.filter (fun c =>
        (containsSub (pyLower c) MARKER && !FILTER_KEYS.contains c)
          && YES_VALUES.contains (pyLower (pyStrip (pyStr (rowGet row c)))))).map
        (fun c => pyReplace c STRIP_PHRASE "") ∧
    (∀ c : String, rowGet row c = Value.na →
      YES_VALUES.contains (pyLower (pyStrip (pyStr (rowGet row c)))) = false) := by
  constructor
  · unfold booleanContribs boolean_cols
    rw [filterMap_if, List.filter_filter]
    congr 1
    apply List.filter_congr
    intro c hc
    rw [Bool.and_comm]
  · intro c h
    rw [h]
    exact na_not_affirmative

/-! Claim C8: free-text filter extraction and result assembly. -/

/-- Claim C8: each direct filter column that is present, non-missing and
non-blank after trimming contributes its stringified value, in the fixed
list's order, before any boolean-flag contributions; the result joins the
contributions with ", " when at least one exists and is missing otherwise;
in particular a row whose only filter source is a direct column valued
"HEPA" yields exactly "HEPA". -/
theorem free_text_filters_assembly (row : Row) (source_columns : List String) :
    directContribs row =
      (FILTER_KEYS.filter (fun key =>
        rowHas row key && notna (rowGet row key)
          && !(pyStrip (pyStr (rowGet row key))).isEmpty)).map
        (fun key => pyStr (rowGet row key)) ∧
    extract_filters row source_columns =
      (if (directContribs row ++ booleanContribs row source_columns).isEmpty
       then Value.na
       else Value.s (String.intercalate ", "
         (directContribs row ++ booleanContribs row source_columns))) ∧
    (directContribs row = ["HEPA"] → booleanContribs row source_columns = [] →
      extract_filters row source_columns = Value.s "HEPA") := by
  refine ⟨filterMap_if _ _ _, rfl, ?_⟩
  intro h1 h2
  simp only [extract_filters, h1, h2]
  decide

/-- Witness for C8: the "HEPA" row yields exactly "HEPA". -/
theorem free_text_filters_assembly_witness :
    extract_filters rowHepa ["Артикул", "Воздушный фильтр"] = Value.s "HEPA" :=
  (free_text_filters_assembly rowHepa ["Артикул", "Воздушный фильтр"]).2.2
    (by decide) (by decide)

end CatalogSorter
